import Mathlib

/-!
Verification development for the CalendarProxy formatter core
(`src/formatters/base.ts`).

The TypeScript pipeline is shallowly embedded: `ical.Component` VEVENTs
become association lists of property key/value pairs, `ical.Time` values
become their signed Unix-epoch second counts (the only facets of
`ical.Time` the formatter touches are `compare`, `adjust` by whole days,
`dayOfWeek` and `toUnixTime`, all of which are functions of the epoch
count for the UTC times modelled here), JavaScript runtime errors thrown
by a stage become `Except` errors, and `RegExp`-valued configuration
fields (whose semantics live in the JS engine, not in this repository)
are embedded by the string function they denote.  Strings are modelled
over their character lists; case folding is the ASCII fragment of
JavaScript `toLowerCase`, which agrees with it on all ASCII data.
-/

/-! ## JavaScript string primitives -/

/-- ASCII fragment of JavaScript `String.prototype.toLowerCase`, per character. -/
def charToLowerJS (c : Char) : Char :=
  if 'A' ≤ c ∧ c ≤ 'Z' then Char.ofNat (c.toNat + 32) else c

/-- JavaScript `toLowerCase` on a string (ASCII fragment). -/
def toLowerJS (s : String) : String :=
  ⟨s.data.map charToLowerJS⟩

/-- Does `pat` occur at the head of `s` (character lists)? -/
def listLeads : List Char → List Char → Bool
  | [], _ => true
  | _ :: _, [] => false
  | p :: ps, c :: cs => (p == c) && listLeads ps cs

/-- Does `pat` occur anywhere inside `s` (character lists)? -/
def listWithin (pat : List Char) : List Char → Bool
  | [] => listLeads pat []
  | c :: cs => listLeads pat (c :: cs) || listWithin pat cs

/-- JavaScript `s.startsWith(pat)`. -/
def strStartsJS (s pat : String) : Bool := listLeads pat.data s.data

/-- JavaScript `s.endsWith(pat)`. -/
def strEndsJS (s pat : String) : Bool := listLeads pat.data.reverse s.data.reverse

/-- JavaScript `s.includes(pat)`. -/
def strHasJS (s pat : String) : Bool := listWithin pat.data s.data

/-- Hexadecimal digit character (lowercase), for digits 0–15. -/
def hexDigitChar (n : Nat) : Char :=
  if n < 10 then Char.ofNat (48 + n) else Char.ofNat (87 + n)

/-- Hex digit list of a positive natural, most significant first (fuel-driven). -/
def natToHexAux : Nat → Nat → List Char
  | 0, _ => []
  | _ + 1, 0 => []
  | fuel + 1, n => natToHexAux fuel (n / 16) ++ [hexDigitChar (n % 16)]

/-- Lowercase hexadecimal rendering of a natural number, as JavaScript prints it. -/
def natToHex (n : Nat) : String :=
  if n = 0 then "0" else ⟨natToHexAux n n⟩

/-- JavaScript `Number.prototype.toString(16)` on a (signed) integer. -/
def intToHexJS (t : Int) : String :=
  if t < 0 then "-" ++ natToHex t.natAbs else natToHex t.toNat

/-! ## MD5 (the `crypto` `md5` digest used for UID derivation)

Arithmetic is over `Nat` with explicit reduction modulo `2 ^ 32`. -/

/-- Reduction modulo `2 ^ 32`. -/
def m32 (x : Nat) : Nat := x % 4294967296

/-- 32-bit bitwise complement (operands are kept below `2 ^ 32`). -/
def not32 (x : Nat) : Nat := Nat.xor x 4294967295

/-- 32-bit left rotation by `s` (`0 < s < 32` in the MD5 tables). -/
def rotl32 (x s : Nat) : Nat := m32 ((x <<< s) ||| (x >>> (32 - s)))

/-- MD5 round function F. -/
def md5F (b c d : Nat) : Nat := (b &&& c) ||| (not32 b &&& d)

/-- MD5 round function G. -/
def md5G (b c d : Nat) : Nat := (d &&& b) ||| (not32 d &&& c)

/-- MD5 round function H. -/
def md5H (b c d : Nat) : Nat := Nat.xor (Nat.xor b c) d

/-- MD5 round function I. -/
def md5I (b c d : Nat) : Nat := Nat.xor c (b ||| not32 d)

/-- MD5 sine-derived additive constant table (64 entries). -/
def md5K : List Nat :=
  [0xd76aa478, 0xe8c7b756, 0x242070db, 0xc1bdceee,
   0xf57c0faf, 0x4787c62a, 0xa8304613, 0xfd469501,
   0x698098d8, 0x8b44f7af, 0xffff5bb1, 0x895cd7be,
   0x6b901122, 0xfd987193, 0xa679438e, 0x49b40821,
   0xf61e2562, 0xc040b340, 0x265e5a51, 0xe9b6c7aa,
   0xd62f105d, 0x02441453, 0xd8a1e681, 0xe7d3fbc8,
   0x21e1cde6, 0xc33707d6, 0xf4d50d87, 0x455a14ed,
   0xa9e3e905, 0xfcefa3f8, 0x676f02d9, 0x8d2a4c8a,
   0xfffa3942, 0x8771f681, 0x6d9d6122, 0xfde5380c,
   0xa4beea44, 0x4bdecfa9, 0xf6bb4b60, 0xbebfbc70,
   0x289b7ec6, 0xeaa127fa, 0xd4ef3085, 0x04881d05,
   0xd9d4d039, 0xe6db99e5, 0x1fa27cf8, 0xc4ac5665,
   0xf4292244, 0x432aff97, 0xab9423a7, 0xfc93a039,
   0x655b59c3, 0x8f0ccc92, 0xffeff47d, 0x85845dd1,
   0x6fa87e4f, 0xfe2ce6e0, 0xa3014314, 0x4e0811a1,
   0xf7537e82, 0xbd3af235, 0x2ad7d2bb, 0xeb86d391]

/-- MD5 per-round left-rotation amounts (64 entries). -/
def md5S : List Nat :=
  [7, 12, 17, 22, 7, 12, 17, 22, 7, 12, 17, 22, 7, 12, 17, 22,
   5, 9, 14, 20, 5, 9, 14, 20, 5, 9, 14, 20, 5, 9, 14, 20,
   4, 11, 16, 23, 4, 11, 16, 23, 4, 11, 16, 23, 4, 11, 16, 23,
   6, 10, 15, 21, 6, 10, 15, 21, 6, 10, 15, 21, 6, 10, 15, 21]

/-- One MD5 round step on the working state, at round index `i` with schedule `msg`. -/
def md5Step (msg : List Nat) (st : Nat × Nat × Nat × Nat) (i : Nat) :
    Nat × Nat × Nat × Nat :=
  let (a, b, c, d) := st
  let fg : Nat × Nat :=
    if i < 16 then (md5F b c d, i)
    else if i < 32 then (md5G b c d, (5 * i + 1) % 16)
    else if i < 48 then (md5H b c d, (3 * i + 5) % 16)
    else (md5I b c d, (7 * i) % 16)
  let tmp := m32 (fg.1 + a + md5K.getD i 0 + msg.getD fg.2 0)
  (d, m32 (b + rotl32 tmp (md5S.getD i 0)), b, c)

/-- Decode a 64-byte chunk into sixteen little-endian 32-bit words. -/
def md5Words (chunk : List Nat) : List Nat :=
  (List.range 16).map fun i =>
    chunk.getD (4 * i) 0 + 256 * chunk.getD (4 * i + 1) 0 +
      65536 * chunk.getD (4 * i + 2) 0 + 16777216 * chunk.getD (4 * i + 3) 0

/-- Compress one 64-byte chunk into the running state. -/
def md5Chunk (st : Nat × Nat × Nat × Nat) (chunk : List Nat) :
    Nat × Nat × Nat × Nat :=
  let (a0, b0, c0, d0) := st
  let w := md5Words chunk
  let r := (List.range 64).foldl (md5Step w) (a0, b0, c0, d0)
  (m32 (a0 + r.1), m32 (b0 + r.2.1), m32 (c0 + r.2.2.1), m32 (d0 + r.2.2.2))

/-- Split a byte list into 64-byte chunks (fuel-driven, structurally recursive). -/
def md5Chunks : Nat → List Nat → List (List Nat)
  | 0, _ => []
  | _ + 1, [] => []
  | fuel + 1, l => l.take 64 :: md5Chunks fuel (l.drop 64)

/-- MD5 padding: a `0x80` byte, zero bytes to 56 mod 64, then the bit length
little-endian in 8 bytes. -/
def md5Pad (msg : List Nat) : List Nat :=
  let l := msg.length
  let zeros := (64 + 56 - (l + 1) % 64) % 64
  msg ++ [128] ++ List.replicate zeros 0 ++
    (List.range 8).map fun i => ((8 * l) % 18446744073709551616) >>> (8 * i) % 256

/-- Little-endian byte rendering of one 32-bit word. -/
def md5WordBytes (w : Nat) : List Nat :=
  [w % 256, w / 256 % 256, w / 65536 % 256, w / 16777216 % 256]

/-- MD5 digest of a byte list, as 16 bytes. -/
def md5Bytes (msg : List Nat) : List Nat :=
  let padded := md5Pad msg
  let st := (md5Chunks padded.length padded).foldl md5Chunk
    (0x67452301, 0xefcdab89, 0x98badcfe, 0x10325476)
  md5WordBytes st.1 ++ md5WordBytes st.2.1 ++ md5WordBytes st.2.2.1 ++
    md5WordBytes st.2.2.2

/-- Two lowercase hex digits of one byte. -/
def byteToHex (b : Nat) : List Char := [hexDigitChar (b / 16), hexDigitChar (b % 16)]

/-- Hex-encoded MD5 digest of a string, as `crypto.createHash('md5')` followed by
`digest('hex')` computes it.  The strings hashed by the formatter are ASCII, where
UTF-8 bytes coincide with code points. -/
def md5Hex (s : String) : String :=
  ⟨((md5Bytes (s.data.map Char.toNat)).map byteToHex).flatten⟩

/-! ## Calendar data model

`ical.Component` VEVENTs are embedded as ordered association lists of
property key/value pairs.  Property values carry the three value shapes the
formatter reads or writes: parsed text, parsed date-times (`ical.Time`,
kept as signed Unix-epoch seconds), and recurrence rules (`ical.Recur`).
Property parameters (such as `tzid`) and non-VEVENT subcomponents are never
read by any formatter operation and are omitted. -/

/-- Recurrence frequency, as in `RecurrenceCollapseConfig.frequency`. -/
inductive Freq
  | daily
  | weekly
deriving DecidableEq, Repr

/-- The data of an `ical.Recur` built by the Recurrence Collapser:
frequency, occurrence count and the optional weekly `BYDAY` marker. -/
structure RRuleData where
  freq : Freq
  count : Nat
  byday : Option (List String)
deriving DecidableEq, Repr

/-- Zero-pad a natural to the given width. -/
def padNum (width n : Nat) : String :=
  let s := toString n
  ⟨List.replicate (width - s.length) '0'⟩ ++ s

/-- ISO-style rendering of an epoch-seconds time, standing in for
`ical.Time.toString` on the UTC times modelled here (civil fields computed by
the standard era decomposition).  No verified claim inspects this rendering. -/
def timeToIso (t : Int) : String :=
  let days := Int.fdiv t 86400
  let secs := (Int.emod t 86400).toNat
  let z := days + 719468
  let era := Int.fdiv z 146097
  let doe := (z - era * 146097).toNat
  let yoe := (doe - doe / 1460 + doe / 36524 - doe / 146096) / 365
  let doy := doe - (365 * yoe + yoe / 4 - yoe / 100)
  let mp := (5 * doy + 2) / 153
  let d := doy - (153 * mp + 2) / 5 + 1
  let m := if mp < 10 then mp + 3 else mp - 9
  let y := (yoe : Int) + era * 400 + (if m ≤ 2 then 1 else 0)
  toString y ++ "-" ++ padNum 2 m ++ "-" ++ padNum 2 d ++ "T" ++
    padNum 2 (secs / 3600) ++ ":" ++ padNum 2 (secs % 3600 / 60) ++ ":" ++
    padNum 2 (secs % 60)

/-- Rendering of a recurrence rule, standing in for `ical.Recur.toString`.
No verified claim inspects this rendering. -/
def rruleToIcs (r : RRuleData) : String :=
  "FREQ=" ++ (match r.freq with | .daily => "DAILY" | .weekly => "WEEKLY") ++
    ";COUNT=" ++ toString r.count ++
    (match r.byday with
     | some ds => ";BYDAY=" ++ String.intercalate "," ds
     | none => "")

/-- A property value as returned by `ical.Component.getFirstPropertyValue`:
parsed text, a parsed date-time (epoch seconds), a recurrence rule, or a
date-time kept symbolically as the string it was parsed from
(`ical.Time.fromDateTimeString`, used only when injecting custom events). -/
inductive Value
  | str (s : String)
  | time (t : Int)
  | recur (r : RRuleData)
  | timeFromString (s : String)
deriving DecidableEq, Repr

/-- JavaScript truthiness of a property value: the empty string is falsy,
every object (`ical.Time`, `ical.Recur`) is truthy. -/
def Value.truthy : Value → Bool
  | .str s => !(s == "")
  | _ => true

/-- JavaScript `.toString()` of a property value. -/
def Value.toStr : Value → String
  | .str s => s
  | .time t => timeToIso t
  | .recur r => rruleToIcs r
  | .timeFromString s => s

/-- One VEVENT component: its ordered property list. -/
structure VEvent where
  properties : List (String × Value)
deriving DecidableEq, Repr

/-- The root VCALENDAR component: document-level properties and the ordered
VEVENT subcomponents. -/
structure VCalendar where
  properties : List (String × Value)
  vevents : List VEvent
deriving DecidableEq, Repr

/-- First value stored under a key in a property list, or `none`
(`getFirstPropertyValue` returning `null`). -/
def propLookup : List (String × Value) → String → Option Value
  | [], _ => none
  | (k', v) :: rest, k => if k' = k then some v else propLookup rest k

/-- Model of `ical.Component.getFirstPropertyValue` on a VEVENT. -/
def getFirstPropertyValue (e : VEvent) (k : String) : Option Value :=
  propLookup e.properties k

/-- Replace the value of the first property named `k`, or append the property
if absent (`ical.Component.updatePropertyWithValue`). -/
def updatePropList (k : String) (v : Value) : List (String × Value) → List (String × Value)
  | [] => [(k, v)]
  | (k', v') :: rest =>
      if k' = k then (k', v) :: rest else (k', v') :: updatePropList k v rest

/-- Model of `updatePropertyWithValue` on a VEVENT. -/
def updateProp (e : VEvent) (k : String) (v : Value) : VEvent :=
  ⟨updatePropList k v e.properties⟩

/-- Model of `addPropertyWithValue` on a VEVENT: appends a new property. -/
def addProp (e : VEvent) (k : String) (v : Value) : VEvent :=
  ⟨e.properties ++ [(k, v)]⟩

/-- The parsed start time of an event: the value of its `dtstart` property,
which ical.js parses to an `ical.Time` (the `as ical.Time` cast in the source). -/
def getStart (e : VEvent) : Option Int :=
  match getFirstPropertyValue e "dtstart" with
  | some (.time t) => some t
  | _ => none

/-- The `uid` property read as a string (the `as string | null` cast in the
source; ical.js parses `UID` as text). -/
def uidJS (e : VEvent) : Option String :=
  match getFirstPropertyValue e "uid" with
  | some (.str s) => some s
  | _ => none


/-! ## Predicate evaluation (`testEventPredicate`, `checkCondition`) -/

/-- The quantifier of an `EventPredicate` (`match` in the source; `match` is a
Lean keyword): `any`, `all`, or an exact integer from the configuration. -/
inductive MatchKind
  | any
  | all
  | count (n : Int)
deriving DecidableEq, Repr

/-- Literal comparison selector of the first `EventPredicate.method` variant. -/
inductive LitType
  | eq
  | contains
  | startsWith
  | endsWith
deriving DecidableEq, Repr

/-- The `method` union of `EventPredicate`: the literal-comparison variant with
its optional `ignoreCase` flag, or the `regex` variant, which carries no
`ignoreCase` field. -/
inductive PredMethod
  | literal (ty : LitType) (ignoreCase : Option Bool) (value : String)
  | regex (value : String)
deriving DecidableEq, Repr

/-- An `EventPredicate` from `events/event.ts`. -/
structure EventPredicate where
  matchKind : MatchKind
  propertyKey : String
  method : PredMethod
deriving DecidableEq, Repr

/-- The comparison value of a method (`predicate.method.value`). -/
def PredMethod.value : PredMethod → String
  | .literal _ _ v => v
  | .regex v => v

/-- The `'ignoreCase' in predicate.method && predicate.method.ignoreCase` test:
true exactly when the method object carries an `ignoreCase` field holding
`true`.  The `regex` variant has no such field. -/
def methodIgnoreCase : PredMethod → Bool
  | .literal _ (some b) _ => b
  | .literal _ none _ => false
  | .regex _ => false

/-- JavaScript `new RegExp(pattern).test(s)`, embedded for the
metacharacter-free patterns exercised here, on which a regular-expression
match is exactly a substring test.  The pattern-compilation semantics live in
the JS engine, outside this repository. -/
def regexTest (pattern s : String) : Bool := strHasJS s pattern

/-- The literal-comparison switch of `testEventPredicate`, after the optional
case folding of both operands. -/
def literalEval (ty : LitType) (ic : Option Bool) (expected actual : String) : Bool :=
  let fold := methodIgnoreCase (.literal ty ic expected)
  let vs := if fold then toLowerJS actual else actual
  let ev := if fold then toLowerJS expected else expected
  match ty with
  | .eq => vs == ev
  | .contains => strHasJS vs ev
  | .startsWith => strStartsJS vs ev
  | .endsWith => strEndsJS vs ev

/-- Function `testEventPredicate` from `formatters/base.ts`: fetch the named property,
fail on a falsy value, case-fold both operands when the method carries
`ignoreCase: true`, then switch on the method type. -/
def testEventPredicate (e : VEvent) (p : EventPredicate) : Bool :=
  match getFirstPropertyValue e p.propertyKey with
  | none => false
  | some v =>
      if !v.truthy then false
      else
        let fold := methodIgnoreCase p.method
        let valueString := if fold then toLowerJS v.toStr else v.toStr
        let expectedValue := if fold then toLowerJS p.method.value else p.method.value
        match p.method with
        | .literal ty _ _ =>
            match ty with
            | .eq => valueString == expectedValue
            | .contains => strHasJS valueString expectedValue
            | .startsWith => strStartsJS valueString expectedValue
            | .endsWith => strEndsJS valueString expectedValue
        | .regex _ => regexTest expectedValue valueString

/-- The threshold `toMatch` is initialised to in `checkCondition`. -/
def matchThreshold (m : MatchKind) (veventCount : Nat) : Int :=
  match m with
  | .any => 1
  | .all => veventCount
  | .count n => n

/-- The counting loop of `checkCondition`: per iteration the guard
`i < n && toMatch > 0 && toMatch <= n - i` is tested (the remaining list has
length `n - i`), and `toMatch` drops by one on each satisfied predicate. -/
def checkLoop (cond : EventPredicate) : List VEvent → Int → Int
  | [], toMatch => toMatch
  | v :: rest, toMatch =>
      if toMatch > 0 ∧ toMatch ≤ (v :: rest).length then
        checkLoop cond rest (if testEventPredicate v cond then toMatch - 1 else toMatch)
      else toMatch

/-- Function `checkCondition` from `formatters/base.ts`: quantified predicate
evaluation over the document's VEVENTs. -/
def checkCondition (root : VCalendar) (cond : EventPredicate) : Bool :=
  let vevents := root.vevents
  checkLoop cond vevents (matchThreshold cond.matchKind vevents.length) == 0

/-! ## Custom event synthesis (`addAdditionalEvents`) -/

/-- A `CustomEvent` template from `events/event.ts`. -/
structure CustomEvent where
  dtstamp : String
  dtstart : String
  dtend : String
  tzid : Option String
  properties : List (String × String)
  conditions : List EventPredicate

/-- The `CalendarExtensionConfig` bundle. -/
structure CalendarExtensionConfig where
  escapeSpecialCharacters : Option Bool
  customEvents : Option (List CustomEvent)

/-- The `ExtractedDetails` bundle computed before the pipeline stages. -/
structure ExtractedDetails where
  subject : Option String

/-- First pass of `applyEscapeRules`: `src.replace(/\r\n/g, '\\n')`, the
global left-to-right non-overlapping replacement of CRLF pairs by the two
characters `\` `n`. -/
def escCR : List Char → List Char
  | [] => []
  | [c] => [c]
  | c1 :: c2 :: rest =>
      if c1 = '\r' ∧ c2 = '\n' then '\\' :: 'n' :: escCR rest
      else c1 :: escCR (c2 :: rest)

/-- Second pass of `applyEscapeRules`: `.replace(/\n/g, '\\n')`. -/
def escLF : List Char → List Char
  | [] => []
  | c :: rest => if c = '\n' then '\\' :: 'n' :: escLF rest else c :: escLF rest

/-- Function `applyEscapeRules` from `formatters/base.ts`. -/
def applyEscapeRules (src : String) : String :=
  ⟨escLF (escCR src.data)⟩

/-- Function `getUid` from `formatters/base.ts`: hash the template's creation timestamp
concatenated with its `summary` property (JavaScript renders an absent
property as the text `undefined` inside a template literal). -/
def getUid (eventView : CustomEvent) (_details : ExtractedDetails) : String :=
  "custom_" ++ md5Hex (eventView.dtstamp ++
    ((eventView.properties.lookup "summary").getD "undefined"))

/-- Build the VEVENT injected for one template, as the body of
`addAdditionalEvents` constructs it: `uid`, `dtstamp`, `dtstart`, `dtend`,
then every template property except `uid`, optionally newline-escaped.  The
`tzid` property parameter is not modelled (parameters are never read back). -/
def buildCustomEvent (useEscapeRules : Bool) (details : ExtractedDetails)
    (event : CustomEvent) : VEvent :=
  ⟨[("uid", .str (getUid event details)),
    ("dtstamp", .str event.dtstamp),
    ("dtstart", .timeFromString event.dtstart),
    ("dtend", .timeFromString event.dtend)] ++
    (event.properties.filter (fun kv => kv.1 ≠ "uid")).map
      (fun kv => (kv.1, .str (if useEscapeRules then applyEscapeRules kv.2 else kv.2)))⟩

/-- The skip loop over one template's conditions: every condition must pass
(the source breaks out with `skip = true` at the first failure). -/
def conditionsPass (root : VCalendar) : List EventPredicate → Bool
  | [] => true
  | c :: cs => if checkCondition root c then conditionsPass root cs else false

/-- Append a VEVENT subcomponent (`root.addSubcomponent`). -/
def addVevent (root : VCalendar) (e : VEvent) : VCalendar :=
  ⟨root.properties, root.vevents ++ [e]⟩

/-- The loop body of `addAdditionalEvents` for one template: evaluate its
conditions against the current document and inject the built event unless
some condition fails. -/
def processTemplate (useEscapeRules : Bool) (details : ExtractedDetails)
    (root : VCalendar) (event : CustomEvent) : VCalendar :=
  if conditionsPass root event.conditions then
    addVevent root (buildCustomEvent useEscapeRules details event)
  else root

/-- Function `addAdditionalEvents` from `formatters/base.ts`:  when custom events are
configured, each template is processed in order against the document as
mutated so far. -/
def addAdditionalEvents (config : CalendarExtensionConfig)
    (details : ExtractedDetails) (root : VCalendar) : VCalendar :=
  match config.customEvents with
  | none => root
  | some events =>
      events.foldl (processTemplate (config.escapeSpecialCharacters.getD false) details) root

/-! ## UID fixup (`fixupUids`) -/

/-- The `prefix` union of `UidFixupConfig`: a literal value, or a
regular-expression replacement over the original UID.  The replacement pair
`{regex, replacement}` is embedded by the string function
`u => u.replace(regex, replacement)` it denotes (the `RegExp` engine is
outside this repository). -/
inductive UidPrefixRule
  | value (v : String)
  | regexReplace (apply : String → String)

/-- Configuration `UidFixupConfig` from `formatters/base.ts`. -/
structure UidFixupConfig where
  fixupFirst : Bool
  prefixRule : UidPrefixRule
  derivation : Unit  -- 'DTSTART_MD5' is the only member of the enumeration

/-- The scheduled step a `fixupUids` call runs at. -/
inductive Step
  | first
  | last
deriving DecidableEq, Repr

/-- Whether a `fixupUids` call is active (the source returns the document
unchanged when `step === 'first' && !fixupFirst` or
`step === 'last' && fixupFirst`). -/
def activeStep (config : UidFixupConfig) (step : Step) : Bool :=
  match step with
  | .first => config.fixupFirst
  | .last => !config.fixupFirst

/-- The per-event prefix: the literal value, or the regex replacement applied
to the original UID. -/
def actualPrefixOf (config : UidFixupConfig) (originalUid : String) : String :=
  match config.prefixRule with
  | .value v => v
  | .regexReplace f => f originalUid

/-- The new UID derived for one event under the `DTSTART_MD5` strategy:
prefix concatenated with the hex MD5 digest of the start time's signed
Unix-epoch seconds rendered as hexadecimal text. -/
def derivedUid (config : UidFixupConfig) (originalUid : String) (dtstart : Int) : String :=
  actualPrefixOf config originalUid ++ md5Hex (intToHexJS dtstart)

/-- The per-event rewrite of `fixupUids`, on events whose UID and start are
present (on other events the source throws before reaching the update). -/
def rewriteUidIfAble (config : UidFixupConfig) (v : VEvent) : VEvent :=
  match uidJS v, getStart v with
  | some u, some t =>
      if u = "" then v else updateProp v "uid" (.str (derivedUid config u t))
  | _, _ => v

/-- The event loop of `fixupUids`: per event, a falsy UID throws
`UID is required`; a missing DTSTART throws `DTSTART is required`; otherwise
the UID property is updated to the derived identifier. -/
def fixupLoop (config : UidFixupConfig) : List VEvent → Except String (List VEvent)
  | [] => .ok []
  | v :: rest =>
      match uidJS v with
      | none => .error "UID is required"
      | some u =>
          if u = "" then .error "UID is required"
          else
            match getStart v with
            | none => .error "DTSTART is required"
            | some t =>
                (fixupLoop config rest).map
                  (fun tail => updateProp v "uid" (.str (derivedUid config u t)) :: tail)

/-- Function `fixupUids` from `formatters/base.ts`.  A thrown `Error` aborting the
pipeline call is embedded as an `Except.error`. -/
def fixupUids (config : UidFixupConfig) (step : Step) (root : VCalendar) :
    Except String VCalendar :=
  if !activeStep config step then .ok root
  else if root.vevents.length = 0 then .ok root
  else (fixupLoop config root.vevents).map (fun evs => ⟨root.properties, evs⟩)

/-! ## Field rewriting (`rewriteComponent`) -/

/-- The `rewriter` union of a rewrite pattern: a `{regex, replacement}` pair,
embedded by the string function it denotes, or a `format` function. -/
inductive Rewriter
  | regexReplace (apply : String → String)
  | format (f : String → String)

/-- One entry of `EventFieldRewriterConfig.patterns`. -/
structure RewritePattern where
  propertyKey : String
  sourceKey : String
  useOriginalSourceValue : Bool
  rewriter : Rewriter

/-- Configuration `EventFieldRewriterConfig`. -/
structure EventFieldRewriterConfig where
  patterns : List RewritePattern

/-- Apply a pattern's rewriter to the resolved source value. -/
def applyRewriter : Rewriter → String → String
  | .regexReplace f, s => f s
  | .format f, s => f s

/-- A property value read as a string with missing values resolving to the
empty string (`component.getFirstPropertyValue(k)?.toString() ?? ''`). -/
def strOfProp (e : VEvent) (k : String) : String :=
  ((getFirstPropertyValue e k).map Value.toStr).getD ""

/-- The lazily populated original-value snapshot (`originalValuesLazy`),
an insertion-ordered map from property keys to strings. -/
abbrev Snapshot := List (String × String)

/-- Lookup in an insertion-ordered string-keyed map (`Map.get`, with
`undefined` as `none`; `Map.set` never stores duplicate keys, so first
match is the stored entry). -/
def alistGet : List (String × α) → String → Option α
  | [], _ => none
  | (k', v) :: rest, k => if k' = k then some v else alistGet rest k

/-- Map lookup on the snapshot. -/
def snapGet (snap : Snapshot) (k : String) : Option String := alistGet snap k

/-- The snapshot after the store-if-absent prologue of one pattern:
the pattern's target key is recorded with its current component value if not
yet present. -/
def stepSnap (st : VEvent × Snapshot) (pat : RewritePattern) : Snapshot :=
  if (snapGet st.2 pat.propertyKey).isNone then
    st.2 ++ [(pat.propertyKey, strOfProp st.1 pat.propertyKey)]
  else st.2

/-- The source value supplied to one pattern: the snapshot value of the source
key when `useOriginalSourceValue` is set (with `??=` falling back to the
current component value when the snapshot has no entry), otherwise the current
component value. -/
def suppliedSource (st : VEvent × Snapshot) (pat : RewritePattern) : String :=
  let snap := stepSnap st pat
  ((if pat.useOriginalSourceValue then snapGet snap pat.sourceKey else none).getD
    (strOfProp st.1 pat.sourceKey))

/-- One iteration of the pattern loop in `rewriteComponent`. -/
def rewriteStep (st : VEvent × Snapshot) (pat : RewritePattern) : VEvent × Snapshot :=
  (updateProp st.1 pat.propertyKey
      (.str (applyRewriter pat.rewriter (suppliedSource st pat))),
    stepSnap st pat)

/-- Function `rewriteComponent` from `formatters/base.ts`. -/
def rewriteComponent (component : VEvent) (settings : EventFieldRewriterConfig) : VEvent :=
  (settings.patterns.foldl rewriteStep (component, ([] : Snapshot))).1

/-! ## Recurrence collapsing (`collapseSelectedRecurrences`) -/

/-- Configuration `RecurrenceCollapseConfig`. -/
structure RecurrenceCollapseConfig where
  requiredMatchingKeys : List String
  frequency : Freq

/-- Model of `ical.Time.compare` on epoch seconds: `-1`, `0` or `1`. -/
def compareTime (a b : Int) : Int :=
  if a < b then -1 else if b < a then 1 else 0

/-- Insert into a sorted list, after every element that does not compare
greater — the unique stable position. -/
def insertByC (f : α → α → Int) (x : α) : List α → List α
  | [] => [x]
  | y :: ys => if f x y ≤ 0 then x :: y :: ys else y :: insertByC f x ys

/-- Stable comparator sort.  `Array.prototype.sort` is required to be stable,
so it computes the same list as this insertion sort for any consistent
comparator. -/
def sortByC (f : α → α → Int) : List α → List α
  | [] => []
  | x :: xs => insertByC f x (sortByC f xs)

/-- Function `getFutureOccurrenceTime`: advance by one day or seven
(`ical.Time.adjust` by whole days, on the UTC times modelled here). -/
def getFutureOccurrenceTime (now : Int) (frequency : Freq) : Int :=
  match frequency with
  | .daily => now + 86400
  | .weekly => now + 604800

/-- The period a frequency advances by, in seconds. -/
def periodOf (frequency : Freq) : Int :=
  match frequency with
  | .daily => 86400
  | .weekly => 604800

/-- Model of `ical.Time.dayOfWeek` (Sunday = 1) of an epoch-seconds time, turned into
the `BYDAY` marker by the `switch` in the source.  Day 0 of the epoch was a
Thursday. -/
def bydayOf (t : Int) : String :=
  ["SU", "MO", "TU", "WE", "TH", "FR", "SA"].getD
    ((Int.fdiv t 86400 + 4).emod 7).toNat "SU"

/-- The `byday` component of a freshly created recurrence: only weekly series
record the anchor's weekday. -/
def bydayFor (frequency : Freq) (start : Int) : Option (List String) :=
  match frequency with
  | .daily => none
  | .weekly => some [bydayOf start]

/-- State `RecurrenceInProgress`: the anchor event, the snapshot of required-match
values (`Map<string, string | null>`, embedded as an association list over the
configured keys), the next expected start, and the accumulating rule. -/
structure RecurrenceInProgress where
  baseEvent : VEvent
  matchRequirements : List (String × Option String)
  nextTime : Int
  recurrence : RRuleData

/-- The match-requirement snapshot taken when a series is created:
`getFirstPropertyValue(key)?.toString() ?? null` per configured key. -/
def buildRequirements (keys : List String) (e : VEvent) : List (String × Option String) :=
  keys.map (fun k => (k, (getFirstPropertyValue e k).map Value.toStr))

/-- JavaScript strict equality between a stored requirement
(`string | null`, with `undefined` for a key missing from the map) and a raw
property value (`null`, a string, or an ical object, which no string ever
strictly equals). -/
def reqMatches (stored : Option (Option String)) (raw : Option Value) : Bool :=
  match stored, raw with
  | some none, none => true
  | some (some s), some (.str s') => s == s'
  | _, _ => false

/-- The key-match loop of the collapser: every required key's stored snapshot
must strictly equal the candidate's raw property value. -/
def keysMatch (keys : List String) (reqs : List (String × Option String)) (e : VEvent) : Bool :=
  keys.all fun k => reqMatches (alistGet reqs k) (getFirstPropertyValue e k)

/-- The time check of the collapser: the candidate has a start equal to the
series' expected next time. -/
def timeMatches (r : RecurrenceInProgress) (e : VEvent) : Bool :=
  match getStart e with
  | some s => compareTime r.nextTime s == 0
  | none => false

/-- Extend a matching series: bump the count and advance the expected time. -/
def extendSeries (settings : RecurrenceCollapseConfig) (r : RecurrenceInProgress) :
    RecurrenceInProgress :=
  { r with
    nextTime := getFutureOccurrenceTime r.nextTime settings.frequency,
    recurrence := { r.recurrence with count := r.recurrence.count + 1 } }

/-- The inner loop over open series: the first one whose keys and expected
time both match is extended in place; key-matching series with the wrong time
are passed over. -/
def tryExtend (settings : RecurrenceCollapseConfig) (e : VEvent) :
    List RecurrenceInProgress → Option (List RecurrenceInProgress)
  | [] => none
  | r :: rs =>
      if keysMatch settings.requiredMatchingKeys r.matchRequirements e ∧ timeMatches r e then
        some (extendSeries settings r :: rs)
      else (tryExtend settings e rs).map (fun rs' => r :: rs')

/-- A new open series anchored at an event with start `s`: count 1, expected
next time one period ahead, weekly series recording the anchor weekday. -/
def newSeries (settings : RecurrenceCollapseConfig) (e : VEvent) (s : Int) :
    RecurrenceInProgress :=
  { baseEvent := e,
    matchRequirements := buildRequirements settings.requiredMatchingKeys e,
    nextTime := getFutureOccurrenceTime s settings.frequency,
    recurrence := ⟨settings.frequency, 1, bydayFor settings.frequency s⟩ }

/-- The truthiness test `if (rrule)` on `getFirstPropertyValue('rrule')`. -/
def hasTruthyRrule (e : VEvent) : Bool :=
  match getFirstPropertyValue e "rrule" with
  | some v => v.truthy
  | none => false

/-- The main walk of `collapseSelectedRecurrences` over the sorted events:
events already carrying a truthy recurrence rule go straight to the output;
otherwise the event extends the first matching open series or opens a new one
(events lacking a start open nothing and are dropped). -/
def collapseLoop (settings : RecurrenceCollapseConfig) :
    List VEvent → List VEvent → List RecurrenceInProgress →
    List VEvent × List RecurrenceInProgress
  | [], out, inProgress => (out, inProgress)
  | e :: rest, out, inProgress =>
      if hasTruthyRrule e then collapseLoop settings rest (out ++ [e]) inProgress
      else
        match tryExtend settings e inProgress with
        | some inProgress' => collapseLoop settings rest out inProgress'
        | none =>
            match getStart e with
            | some s => collapseLoop settings rest out (inProgress ++ [newSeries settings e s])
            | none => collapseLoop settings rest out inProgress

/-- Materialise one finished series: series that grew past one occurrence get
an `rrule` property appended to their anchor; lone anchors are emitted bare. -/
def finalizeSeries (r : RecurrenceInProgress) : VEvent :=
  if r.recurrence.count > 1 then addProp r.baseEvent "rrule" (.recur r.recurrence)
  else r.baseEvent

/-- Function `collapseSelectedRecurrences` from `formatters/base.ts`: drop events
without a start, sort the rest stably by start time, run the collapsing walk,
then emit pass-through events followed by the materialised series. -/
def collapseSelectedRecurrences (vevents : List VEvent)
    (settings : RecurrenceCollapseConfig) : List VEvent :=
  let sorted :=
    (sortByC (fun a b => compareTime a.1 b.1)
      (vevents.filterMap (fun v => (getStart v).map (fun s => (s, v))))).map (·.2)
  let (out, inProgress) := collapseLoop settings sorted [] []
  out ++ inProgress.map finalizeSeries

/-! ## Proof-side definitions -/

/-- Regex-mode evaluation with no case folding anywhere: the raw property
value tested against the raw pattern.  Stated from the specification's words
for comparison with `testEventPredicate`. -/
def regexEvalNoFold (e : VEvent) (key pattern : String) : Bool :=
  match getFirstPropertyValue e key with
  | none => false
  | some v => if !v.truthy then false else regexTest pattern v.toStr

/-- A group whose start times are chained exactly one period apart: the first
event starts at `t`, each following event one period later. -/
def startChainB (t p : Int) : List VEvent → Bool
  | [] => true
  | e :: rest => decide (getStart e = some t) && startChainB (t + p) p rest

/-- The start/event pairs of a chained group, for relating the collapser's
sort to the original order. -/
def pairTimes (t p : Int) : List VEvent → List (Int × VEvent)
  | [] => []
  | e :: rest => (t, e) :: pairTimes (t + p) p rest

/-- Invariant of the field-rewriter fold: every snapshot entry records the
pre-run value of its key, and every key without a snapshot entry still holds
its pre-run value in the component. -/
def rewriteInv (orig : VEvent) (st : VEvent × Snapshot) : Prop :=
  (∀ k v, snapGet st.2 k = some v → v = strOfProp orig k) ∧
  (∀ k, snapGet st.2 k = none → strOfProp st.1 k = strOfProp orig k)

/-- An event in `fixupUids`'s fatal set: falsy UID or missing start. -/
def fixupBad (v : VEvent) : Prop :=
  uidJS v = none ∨ uidJS v = some "" ∨ getStart v = none

/-! ## Concrete instances used by witnesses and counterexamples -/

/-- A singleton event with start `s` and summary `sum`. -/
def mkEv (s : Int) (sum : String) : VEvent :=
  ⟨[("dtstart", .time s), ("summary", .str sum)]⟩

/-- Daily collapse settings matching on `summary`. -/
def cfgDailyW : RecurrenceCollapseConfig := ⟨["summary"], .daily⟩

/-- An event already carrying a recurrence rule and a start. -/
def evRRW : VEvent := ⟨[("rrule", .recur ⟨.daily, 5, none⟩), ("dtstart", .time 50)]⟩

/-- An event carrying a recurrence rule but no start. -/
def evRRNoStartW : VEvent := ⟨[("rrule", .recur ⟨.daily, 5, none⟩)]⟩

/-- A document with two events whose `summary` is `x`. -/
def rootCountW : VCalendar := ⟨[], [mkEv 0 "x", mkEv 1 "x"]⟩

/-- An exact-count-1 predicate on `summary` equal to `x`. -/
def predCountW : EventPredicate := ⟨.count 1, "summary", .literal .eq none "x"⟩

/-- An event whose `status` property is present with the empty string. -/
def evEmptyW : VEvent := ⟨[("status", .str "")]⟩

/-- An equals-empty-string predicate on `status`. -/
def predEmptyW : EventPredicate := ⟨.any, "status", .literal .eq none ""⟩

/-- A component with an original `summary` of `orig`. -/
def rwCompW : VEvent := ⟨[("summary", .str "orig")]⟩

/-- Two patterns: the first overwrites `summary`, the second reads `summary`
pinned to the original snapshot. -/
def rwCfgW : EventFieldRewriterConfig :=
  ⟨[⟨"summary", "summary", false, .format (fun _ => "changed")⟩,
    ⟨"desc", "summary", true, .format (fun s => s ++ "!")⟩]⟩

/-- A UID-fixup configuration with a literal prefix, fixing up first. -/
def uidCfgW : UidFixupConfig := ⟨true, .value "p_", ()⟩

/-- An event with UID `old` and a start. -/
def evUidW : VEvent := ⟨[("uid", .str "old"), ("dtstart", .time 255)]⟩

/-- A document holding `evUidW`. -/
def rootUidW : VCalendar := ⟨[], [evUidW]⟩

/-- A document whose single event lacks a UID. -/
def rootNoUidW : VCalendar := ⟨[], [⟨[("dtstart", .time 0)]⟩]⟩

/-- A custom-event template gated by an `all`-quantified `status = confirmed`
predicate. -/
def tmplW : CustomEvent :=
  ⟨"20240101T000000Z", "2024-01-02T10:00:00", "2024-01-02T11:00:00", none,
    [("summary", "Hello")], [⟨.all, "status", .literal .eq none "confirmed"⟩]⟩

/-! ## Escape-rule lemmas and C10 -/

theorem escLF_no_lf (l : List Char) : '\n' ∉ escLF l := by
  induction l with
  | nil => simp [escLF]
  | cons c rest ih =>
      by_cases hc : c = '\n'
      · subst hc
        simp [escLF, ih]
      · simp only [escLF, if_neg hc, List.mem_cons]
        push_neg
        exact ⟨fun h => hc h.symm, ih⟩

theorem escCR_of_no_lf : ∀ l : List Char, '\n' ∉ l → escCR l = l := by
  intro l
  induction l using escCR.induct with
  | case1 => intro; rfl
  | case2 c => intro; rfl
  | case3 c1 c2 rest hcr ih =>
      intro h
      exfalso
      exact h (by simp [hcr.2])
  | case4 c1 c2 rest hcr ih =>
      intro h
      rw [escCR, if_neg hcr, ih (fun hm => h (List.mem_cons_of_mem c1 hm))]

theorem escLF_of_no_lf : ∀ l : List Char, '\n' ∉ l → escLF l = l := by
  intro l
  induction l with
  | nil => intro; rfl
  | cons c rest ih =>
      intro h
      have hc : ¬(c = '\n') := fun he => h (he ▸ List.mem_cons_self c rest)
      simp only [escLF, if_neg hc]
      rw [ih (fun hm => h (List.mem_cons_of_mem c hm))]

/-- C10.  The newline-escaping function `applyEscapeRules` is idempotent: one
pass leaves no newline character behind, so a second pass changes nothing. -/
theorem applyEscapeRules_idempotent (s : String) :
    applyEscapeRules (applyEscapeRules s) = applyEscapeRules s := by
  unfold applyEscapeRules
  have hmk : (String.mk (escLF (escCR s.data))).data = escLF (escCR s.data) := rfl
  rw [hmk, escCR_of_no_lf _ (escLF_no_lf _), escLF_of_no_lf _ (escLF_no_lf _)]

/-! ## Predicate-evaluator lemmas, C9 and C8 -/

/-- C9.  In regex mode the predicate evaluation applies no case folding: the
regex variant of the method carries no `ignoreCase` field, so the evaluation
coincides with testing the raw pattern against the raw property value, for
every event and pattern alike. -/
theorem regex_mode_ignores_case_flag (mk : MatchKind) (e : VEvent) (key pattern : String) :
    methodIgnoreCase (PredMethod.regex pattern) = false ∧
    testEventPredicate e ⟨mk, key, .regex pattern⟩ = regexEvalNoFold e key pattern := by
  refine ⟨rfl, ?_⟩
  unfold testEventPredicate regexEvalNoFold
  cases getFirstPropertyValue e key with
  | none => rfl
  | some v => simp [methodIgnoreCase, PredMethod.value]

/-- C8 (amended).  A literal-comparison predicate is false when the named
property is absent, and also false when the property is present with the
empty string (a falsy value); only on a present non-empty string value does
it evaluate to the comparison method applied after optional case folding. -/
theorem literal_predicate_semantics (mk : MatchKind) (e : VEvent) (key : String)
    (ty : LitType) (ic : Option Bool) (val : String) :
    (getFirstPropertyValue e key = none →
      testEventPredicate e ⟨mk, key, .literal ty ic val⟩ = false)
  ∧ (getFirstPropertyValue e key = some (Value.str "") →
      testEventPredicate e ⟨mk, key, .literal ty ic val⟩ = false)
  ∧ (∀ s : String, s ≠ "" → getFirstPropertyValue e key = some (Value.str s) →
      testEventPredicate e ⟨mk, key, .literal ty ic val⟩ = literalEval ty ic val s) := by
  refine ⟨?_, ?_, ?_⟩
  · intro h
    simp [testEventPredicate, h]
  · intro h
    simp [testEventPredicate, h, Value.truthy]
  · intro s hs h
    have hb : (s == "") = false := by
      cases hbe : s == "" with
      | true => exact absurd (by simpa using hbe) hs
      | false => rfl
    simp only [testEventPredicate, h, Value.truthy, hb, Bool.not_false, if_true,
      Bool.not_true, Value.toStr, literalEval]
    cases ty <;> rfl

/-- C8 counterexample.  The `status` property is present with the empty
string, the equals-comparison of two empty strings is true, yet the
predicate evaluates to false, contrary to the claim. -/
theorem empty_value_predicate_false :
    getFirstPropertyValue evEmptyW "status" = some (Value.str "") ∧
    literalEval .eq none "" "" = true ∧
    testEventPredicate evEmptyW predEmptyW = false := by
  refine ⟨rfl, rfl, rfl⟩

/-- Witness for `literal_predicate_semantics` at a concrete event, key and
method. -/
theorem literal_predicate_semantics_witness :
    getFirstPropertyValue (mkEv 0 "Exam") "summary" = some (Value.str "Exam") ∧
    testEventPredicate (mkEv 0 "Exam") ⟨.any, "summary", .literal .contains (some true) "EXAM"⟩ =
      literalEval .contains (some true) "EXAM" "Exam" := by
  refine ⟨rfl, ?_⟩
  exact (literal_predicate_semantics .any (mkEv 0 "Exam") "summary" .contains (some true)
    "EXAM").2.2 "Exam" (by decide) rfl

/-! ## Quantifier-counting lemmas, C7 -/

theorem checkLoop_eq_zero_iff (cond : EventPredicate) :
    ∀ (l : List VEvent) (t : Int),
      checkLoop cond l t = 0 ↔
        0 ≤ t ∧ t ≤ ((l.filter (fun v => testEventPredicate v cond)).length : Int) := by
  intro l
  induction l with
  | nil =>
      intro t
      simp only [checkLoop, List.filter_nil, List.length_nil, Int.natCast_zero]
      omega
  | cons v rest ih =>
      intro t
      have hlen : ((rest.filter (fun v => testEventPredicate v cond)).length : Int) ≤
          (rest.length : Int) := by
        exact_mod_cast List.length_filter_le _ rest
      by_cases hg : t > 0 ∧ t ≤ ((v :: rest).length : Int)
      · rw [checkLoop, if_pos hg]
        by_cases hp : testEventPredicate v cond
        · rw [if_pos hp, ih]
          simp [List.filter_cons, hp]
          omega
        · rw [if_neg hp, ih]
          simp [List.filter_cons, hp]
      · rw [checkLoop, if_neg hg]
        simp only [List.length_cons] at hg
        push_cast at hg
        by_cases hp : testEventPredicate v cond
        · simp [List.filter_cons, hp]
          omega
        · simp [List.filter_cons, hp]
          omega

/-- C7 (amended).  A predicate quantified by a literal integer `N` holds if
and only if `N` is non-negative and **at least** `N` events satisfy it: the
scan stops as soon as `N` matches are found, so surplus matches do not
falsify the condition. -/
theorem count_quantifier_at_least (root : VCalendar) (cond : EventPredicate) (n : Int)
    (h : cond.matchKind = .count n) :
    checkCondition root cond = true ↔
      0 ≤ n ∧ n ≤ ((root.vevents.filter (fun v => testEventPredicate v cond)).length : Int) := by
  unfold checkCondition
  rw [h]
  simp only [matchThreshold, beq_iff_eq]
  exact checkLoop_eq_zero_iff cond root.vevents n

/-- C7 counterexample.  With quantifier `count 1`, a document in which two
events satisfy the predicate still passes the condition, though the number of
satisfying events is 2 ≠ 1, contrary to the exact-count reading. -/
theorem count_quantifier_not_exact :
    checkCondition rootCountW predCountW = true ∧
    (rootCountW.vevents.filter (fun v => testEventPredicate v predCountW)).length = 2 := by
  refine ⟨rfl, rfl⟩

/-- Witness for `count_quantifier_at_least` at a concrete document and
predicate. -/
theorem count_quantifier_at_least_witness :
    checkCondition rootCountW predCountW = true := by
  exact (count_quantifier_at_least rootCountW predCountW 1 rfl).mpr (by decide)

/-! ## Custom-event injection lemmas, C6 -/

theorem conditionsPass_eq_all (root : VCalendar) :
    ∀ cs : List EventPredicate,
      conditionsPass root cs = cs.all (fun c => checkCondition root c) := by
  intro cs
  induction cs with
  | nil => rfl
  | cons c rest ih =>
      simp only [conditionsPass, List.all_cons]
      by_cases hc : checkCondition root c
      · rw [if_pos hc, hc, ih, Bool.true_and]
      · rw [if_neg hc]
        simp only [Bool.not_eq_true] at hc
        rw [hc, Bool.false_and]

/-- C6.  A custom event template is injected exactly when every one of its
guard predicates holds over the current event collection, and an
`all`-quantified predicate over a document with zero events resolves to
threshold 0 and passes vacuously. -/
theorem template_injection_iff_guards (useEscapeRules : Bool) (details : ExtractedDetails)
    (root : VCalendar) (tmpl : CustomEvent) :
    (processTemplate useEscapeRules details root tmpl =
      if tmpl.conditions.all (fun c => checkCondition root c) then
        addVevent root (buildCustomEvent useEscapeRules details tmpl)
      else root)
  ∧ (∀ (root' : VCalendar) (key : String) (m : PredMethod),
      root'.vevents = [] → checkCondition root' ⟨.all, key, m⟩ = true) := by
  constructor
  · rw [processTemplate, conditionsPass_eq_all]
  · intro root' key m hempty
    simp [checkCondition, hempty, matchThreshold, checkLoop]

/-- Witness for `template_injection_iff_guards`: on an empty document the
`all`-quantified guard passes vacuously and the template is injected. -/
theorem template_injection_iff_guards_witness :
    checkCondition ⟨[], []⟩ ⟨.all, "status", .literal .eq none "confirmed"⟩ = true ∧
    processTemplate true ⟨none⟩ ⟨[], []⟩ tmplW =
      addVevent ⟨[], []⟩ (buildCustomEvent true ⟨none⟩ tmplW) := by
  have h := template_injection_iff_guards true ⟨none⟩ ⟨[], []⟩ tmplW
  refine ⟨h.2 ⟨[], []⟩ "status" (.literal .eq none "confirmed") rfl, ?_⟩
  have hall : tmplW.conditions.all (fun c => checkCondition ⟨[], []⟩ c) = true := by decide
  rw [h.1, hall, if_pos rfl]
/-! ## Field-rewriter lemmas, C3 -/

theorem snapGet_append_single (snap : Snapshot) (k k' v : String) :
    snapGet (snap ++ [(k, v)]) k' =
      (match snapGet snap k' with
       | some w => some w
       | none => if k = k' then some v else none) := by
  induction snap with
  | nil => simp [snapGet, alistGet]
  | cons hd tl ih =>
      obtain ⟨k0, v0⟩ := hd
      by_cases h0 : k0 = k'
      · simp only [List.cons_append, snapGet, alistGet, if_pos h0]
      · simp only [snapGet, alistGet] at ih
        simp only [List.cons_append, snapGet, alistGet, if_neg h0]
        exact ih

theorem getFirst_updateProp (e : VEvent) (k : String) (v : Value) (k' : String) :
    getFirstPropertyValue (updateProp e k v) k' =
      if k = k' then some v else getFirstPropertyValue e k' := by
  obtain ⟨props⟩ := e
  simp only [getFirstPropertyValue, updateProp]
  induction props with
  | nil =>
      simp only [updatePropList, propLookup]
  | cons hd tl ih =>
      obtain ⟨k0, v0⟩ := hd
      by_cases h0 : k0 = k
      · subst h0
        simp only [updatePropList, if_pos rfl]
        by_cases h1 : k0 = k'
        · simp only [propLookup, if_pos h1]
        · simp only [propLookup, if_neg h1]
      · simp only [updatePropList, if_neg h0]
        by_cases h1 : k0 = k'
        · have hkk : ¬(k = k') := fun he => h0 (he ▸ h1)
          simp only [propLookup, if_pos h1, if_neg hkk]
        · simp only [propLookup, if_neg h1]
          exact ih

theorem strOfProp_updateProp_ne (e : VEvent) (k : String) (v : Value) (k' : String)
    (h : k ≠ k') : strOfProp (updateProp e k v) k' = strOfProp e k' := by
  simp only [strOfProp, getFirst_updateProp, if_neg h]

theorem stepSnap_subset (st : VEvent × Snapshot) (pat : RewritePattern) (k : String)
    (h : snapGet (stepSnap st pat) k = none) :
    snapGet st.2 k = none ∧ pat.propertyKey ≠ k := by
  unfold stepSnap at h
  by_cases habs : (snapGet st.2 pat.propertyKey).isNone
  · rw [if_pos habs, snapGet_append_single] at h
    cases hold : snapGet st.2 k with
    | some w => rw [hold] at h; exact absurd h (by simp)
    | none =>
        rw [hold] at h
        refine ⟨rfl, fun he => ?_⟩
        rw [if_pos he] at h
        exact Option.noConfusion h
  · rw [if_neg habs] at h
    refine ⟨h, fun he => ?_⟩
    rw [he, h] at habs
    simp at habs

theorem stepSnap_stores (orig : VEvent) (st : VEvent × Snapshot) (pat : RewritePattern)
    (hinv : rewriteInv orig st) :
    ∀ k v, snapGet (stepSnap st pat) k = some v → v = strOfProp orig k := by
  intro k v hget
  unfold stepSnap at hget
  by_cases habs : (snapGet st.2 pat.propertyKey).isNone
  · rw [if_pos habs, snapGet_append_single] at hget
    cases hold : snapGet st.2 k with
    | some w =>
        rw [hold] at hget
        exact (Option.some.injEq _ _ ▸ hget : w = v) ▸ hinv.1 k w hold
    | none =>
        rw [hold] at hget
        by_cases hk : pat.propertyKey = k
        · rw [if_pos hk] at hget
          have hv : v = strOfProp st.1 pat.propertyKey := (Option.some.injEq _ _ ▸ hget).symm
          subst hk
          rw [hv]
          exact hinv.2 pat.propertyKey (by simpa using habs)
        · rw [if_neg hk] at hget
          exact Option.noConfusion hget
  · rw [if_neg habs] at hget
    exact hinv.1 k v hget

theorem rewriteInv_step (orig : VEvent) (st : VEvent × Snapshot) (pat : RewritePattern)
    (hinv : rewriteInv orig st) : rewriteInv orig (rewriteStep st pat) := by
  constructor
  · intro k v hget
    have hget' : snapGet (stepSnap st pat) k = some v := hget
    exact stepSnap_stores orig st pat hinv k v hget'
  · intro k hnone
    have hnone' : snapGet (stepSnap st pat) k = none := hnone
    obtain ⟨hsnap, hne⟩ := stepSnap_subset st pat k hnone'
    calc strOfProp (rewriteStep st pat).1 k
        = strOfProp st.1 k := strOfProp_updateProp_ne st.1 pat.propertyKey _ k hne
      _ = strOfProp orig k := hinv.2 k hsnap

theorem rewriteInv_foldl (orig : VEvent) :
    ∀ (ps : List RewritePattern) (st : VEvent × Snapshot),
      rewriteInv orig st → rewriteInv orig (ps.foldl rewriteStep st) := by
  intro ps
  induction ps with
  | nil => intro st h; exact h
  | cons p rest ih =>
      intro st h
      exact ih (rewriteStep st p) (rewriteInv_step orig st p h)

/-- C3.  Under `useOriginalSourceValue = true`, the source value supplied to a
pattern equals the value its source key held before the first pattern of the
run executed (the empty string when absent), regardless of earlier writes to
that key by preceding patterns of the same run. -/
theorem rewrite_uses_original_source (patterns : List RewritePattern) (component : VEvent)
    (i : Nat) (h : i < patterns.length)
    (horig : (patterns.get ⟨i, h⟩).useOriginalSourceValue = true) :
    suppliedSource ((patterns.take i).foldl rewriteStep (component, ([] : Snapshot)))
        (patterns.get ⟨i, h⟩) =
      strOfProp component (patterns.get ⟨i, h⟩).sourceKey := by
  set pat := patterns.get ⟨i, h⟩ with hpat
  set st := (patterns.take i).foldl rewriteStep (component, ([] : Snapshot)) with hst
  have hinv : rewriteInv component st := by
    apply rewriteInv_foldl
    constructor
    · intro k v hget
      exact absurd hget (by simp [snapGet, alistGet])
    · intro k _
      rfl
  unfold suppliedSource
  simp only [horig, if_true]
  cases hs : snapGet (stepSnap st pat) pat.sourceKey with
  | none =>
      simp only [Option.getD_none]
      exact hinv.2 pat.sourceKey (stepSnap_subset st pat pat.sourceKey hs).1
  | some v =>
      simp only [Option.getD_some]
      exact stepSnap_stores component st pat hinv pat.sourceKey v hs

/-- Witness for `rewrite_uses_original_source`: the second pattern of
`rwCfgW` reads `summary` pinned to the original snapshot and is supplied the
pre-run value `orig` even though the first pattern overwrote `summary`. -/
theorem rewrite_uses_original_source_witness :
    (rwCfgW.patterns.get ⟨1, by decide⟩).useOriginalSourceValue = true ∧
    suppliedSource ((rwCfgW.patterns.take 1).foldl rewriteStep (rwCompW, ([] : Snapshot)))
        (rwCfgW.patterns.get ⟨1, by decide⟩) = "orig" := by
  refine ⟨rfl, ?_⟩
  exact (rewrite_uses_original_source rwCfgW.patterns rwCompW 1 (by decide) rfl).trans rfl
/-! ## UID-fixup lemmas, C4 and C5 -/

theorem rewriteUidIfAble_eq (config : UidFixupConfig) (v : VEvent) (u : String) (t : Int)
    (hu : uidJS v = some u) (hne : u ≠ "") (ht : getStart v = some t) :
    rewriteUidIfAble config v = updateProp v "uid" (.str (derivedUid config u t)) := by
  simp only [rewriteUidIfAble, hu, ht, if_neg hne]

theorem fixupLoop_ok (config : UidFixupConfig) :
    ∀ l : List VEvent,
      (∀ v ∈ l, ∃ u t, uidJS v = some u ∧ u ≠ "" ∧ getStart v = some t) →
      fixupLoop config l = .ok (l.map (rewriteUidIfAble config)) := by
  intro l
  induction l with
  | nil => intro; rfl
  | cons v rest ih =>
      intro h
      obtain ⟨u, t, hu, hne, ht⟩ := h v (List.mem_cons_self v rest)
      have hrest := ih (fun w hw => h w (List.mem_cons_of_mem v hw))
      simp only [fixupLoop, hu, ht, if_neg hne, hrest, Except.map, List.map_cons,
        rewriteUidIfAble_eq config v u t hu hne ht]

/-- C4.  When an active `fixupUids` call succeeds (every event carries a
non-empty UID and a start time), every event's identifier is rewritten to
`prefix + hash`: the prefix is the configured literal or the
regular-expression replacement applied to the original identifier, and the
hash is the hex MD5 digest of the start time's signed Unix-epoch seconds
rendered in hexadecimal text. -/
theorem uid_fixup_derived_identifier (config : UidFixupConfig) (step : Step)
    (root : VCalendar) (hactive : activeStep config step = true)
    (hgood : ∀ v ∈ root.vevents, ∃ u t, uidJS v = some u ∧ u ≠ "" ∧ getStart v = some t) :
    fixupUids config step root =
      .ok ⟨root.properties, root.vevents.map (rewriteUidIfAble config)⟩
  ∧ ∀ v ∈ root.vevents, ∀ u t, uidJS v = some u → u ≠ "" → getStart v = some t →
      rewriteUidIfAble config v =
        updateProp v "uid"
          (.str (actualPrefixOf config u ++ md5Hex (intToHexJS t))) := by
  constructor
  · obtain ⟨props, ves⟩ := root
    unfold fixupUids
    rw [hactive]
    simp only [Bool.not_true, Bool.false_eq_true, if_false]
    by_cases hlen : (VCalendar.mk props ves).vevents.length = 0
    · rw [if_pos hlen]
      have hempty : ves = [] := List.length_eq_zero.mp hlen
      subst hempty
      rfl
    · rw [if_neg hlen, fixupLoop_ok config _ hgood]
      rfl
  · intro v _ u t hu hne ht
    rw [rewriteUidIfAble_eq config v u t hu hne ht]
    rfl

/-- Witness for `uid_fixup_derived_identifier` on a one-event document with a
literal prefix configuration. -/
theorem uid_fixup_derived_identifier_witness :
    fixupUids uidCfgW .first rootUidW =
      .ok ⟨rootUidW.properties, rootUidW.vevents.map (rewriteUidIfAble uidCfgW)⟩ ∧
    rewriteUidIfAble uidCfgW evUidW =
      updateProp evUidW "uid" (.str ("p_" ++ md5Hex (intToHexJS 255))) := by
  have hgood : ∀ v ∈ rootUidW.vevents,
      ∃ u t, uidJS v = some u ∧ u ≠ "" ∧ getStart v = some t := by
    intro v hv
    have hv' : v = evUidW := by
      simpa [rootUidW] using hv
    subst hv'
    exact ⟨"old", 255, rfl, by decide, rfl⟩
  have h := uid_fixup_derived_identifier uidCfgW .first rootUidW rfl hgood
  refine ⟨h.1, ?_⟩
  exact h.2 evUidW (by simp [rootUidW]) "old" 255 rfl (by decide) rfl

theorem fixupLoop_error_iff (config : UidFixupConfig) :
    ∀ l : List VEvent,
      ((∃ v ∈ l, fixupBad v) ↔ ∃ msg, fixupLoop config l = .error msg) := by
  intro l
  induction l with
  | nil =>
      simp [fixupLoop]
  | cons v rest ih =>
      cases hu : uidJS v with
      | none =>
          constructor
          · intro _
            exact ⟨"UID is required", by simp [fixupLoop, hu]⟩
          · intro _
            exact ⟨v, List.mem_cons_self v rest, Or.inl hu⟩
      | some u =>
          by_cases hne : u = ""
          · subst hne
            constructor
            · intro _
              exact ⟨"UID is required", by simp [fixupLoop, hu]⟩
            · intro _
              exact ⟨v, List.mem_cons_self v rest, Or.inr (Or.inl hu)⟩
          · cases ht : getStart v with
            | none =>
                constructor
                · intro _
                  exact ⟨"DTSTART is required", by simp [fixupLoop, hu, if_neg hne, ht]⟩
                · intro _
                  exact ⟨v, List.mem_cons_self v rest, Or.inr (Or.inr ht)⟩
            | some t =>
                have hvgood : ¬ fixupBad v := by
                  intro hbad
                  rcases hbad with h1 | h2 | h3
                  · rw [hu] at h1
                    exact Option.noConfusion h1
                  · rw [hu] at h2
                    exact hne (by simpa using h2)
                  · rw [ht] at h3
                    exact Option.noConfusion h3
                simp only [fixupLoop, hu, ht, if_neg hne]
                constructor
                · intro hex
                  obtain ⟨w, hw, hbad⟩ := hex
                  have hwrest : w ∈ rest := by
                    rcases List.mem_cons.mp hw with he | hr
                    · exact absurd (he ▸ hbad) hvgood
                    · exact hr
                  obtain ⟨msg, hmsg⟩ := ih.mp ⟨w, hwrest, hbad⟩
                  exact ⟨msg, by rw [hmsg]; rfl⟩
                · intro hex
                  obtain ⟨msg, hmsg⟩ := hex
                  have herr : fixupLoop config rest = .error msg := by
                    cases hrec : fixupLoop config rest with
                    | ok l' => rw [hrec] at hmsg; exact Except.noConfusion hmsg
                    | error m =>
                        rw [hrec] at hmsg
                        have hm : m = msg := by
                          simpa [Except.map] using hmsg
                        rw [hm]
                  obtain ⟨w, hw, hbad⟩ := ih.mpr ⟨msg, herr⟩
                  exact ⟨w, List.mem_cons_of_mem v hw, hbad⟩

/-- C5.  An active `fixupUids` call fails (aborting the pipeline call) if and
only if some event has a missing or empty identifier or lacks a start time;
when every event is well-formed the call succeeds with every identifier
rewritten.  The hypothesis `hwf` records the ical.js parser invariant that a
present `uid` property is text. -/
theorem uid_fixup_error_iff (config : UidFixupConfig) (step : Step) (root : VCalendar)
    (hactive : activeStep config step = true)
    (hwf : ∀ v ∈ root.vevents, ∀ w, getFirstPropertyValue v "uid" = some w →
      ∃ s, w = Value.str s) :
    ((∃ v ∈ root.vevents, fixupBad v) ↔ ∃ msg, fixupUids config step root = .error msg)
  ∧ ((∀ v ∈ root.vevents, ¬ fixupBad v) →
      fixupUids config step root =
        .ok ⟨root.properties, root.vevents.map (rewriteUidIfAble config)⟩) := by
  constructor
  · unfold fixupUids
    rw [hactive]
    simp only [Bool.not_true, Bool.false_eq_true, if_false]
    by_cases hlen : root.vevents.length = 0
    · rw [if_pos hlen]
      have hempty : root.vevents = [] := List.length_eq_zero.mp hlen
      rw [hempty]
      simp
    · rw [if_neg hlen]
      rw [fixupLoop_error_iff config root.vevents]
      constructor
      · intro hex
        obtain ⟨msg, hmsg⟩ := hex
        exact ⟨msg, by rw [hmsg]; rfl⟩
      · intro hex
        obtain ⟨msg, hmsg⟩ := hex
        refine ⟨msg, ?_⟩
        cases hrec : fixupLoop config root.vevents with
        | ok l' => rw [hrec] at hmsg; exact Except.noConfusion hmsg
        | error m =>
            rw [hrec] at hmsg
            have hm : m = msg := by
              simpa [Except.map] using hmsg
            rw [hm]
  · intro hgoodneg
    have hgood : ∀ v ∈ root.vevents,
        ∃ u t, uidJS v = some u ∧ u ≠ "" ∧ getStart v = some t := by
      intro v hv
      have hnb := hgoodneg v hv
      unfold fixupBad at hnb
      push_neg at hnb
      obtain ⟨h1, h2, h3⟩ := hnb
      cases hu : uidJS v with
      | none => exact absurd hu h1
      | some u =>
          cases ht : getStart v with
          | none => exact absurd ht h3
          | some t =>
              refine ⟨u, t, rfl, fun he => ?_, rfl⟩
              exact h2 (he ▸ hu)
    obtain ⟨props, ves⟩ := root
    unfold fixupUids
    rw [hactive]
    simp only [Bool.not_true, Bool.false_eq_true, if_false]
    by_cases hlen : (VCalendar.mk props ves).vevents.length = 0
    · rw [if_pos hlen]
      have hempty : ves = [] := List.length_eq_zero.mp hlen
      subst hempty
      rfl
    · rw [if_neg hlen, fixupLoop_ok config _ hgood]
      rfl

/-- Witness for `uid_fixup_error_iff`: a document whose single event lacks a
UID makes the active fixup call fail. -/
theorem uid_fixup_error_iff_witness :
    ∃ msg, fixupUids uidCfgW .first rootNoUidW = .error msg := by
  have hwf : ∀ v ∈ rootNoUidW.vevents, ∀ w, getFirstPropertyValue v "uid" = some w →
      ∃ s, w = Value.str s := by
    intro v hv w hw
    have hv' : v = ⟨[("dtstart", .time 0)]⟩ := by
      simpa [rootNoUidW] using hv
    subst hv'
    exact absurd hw (by simp [getFirstPropertyValue, propLookup])
  refine (uid_fixup_error_iff uidCfgW .first rootNoUidW rfl hwf).1.mp ?_
  exact ⟨⟨[("dtstart", .time 0)]⟩, by simp [rootNoUidW], Or.inl rfl⟩

/-! ## Collapser lemmas, C2 -/

theorem mem_insertByC (f : α → α → Int) (x z : α) :
    ∀ l : List α, z ∈ insertByC f x l ↔ z = x ∨ z ∈ l := by
  intro l
  induction l with
  | nil => simp [insertByC]
  | cons y ys ih =>
      simp only [insertByC]
      by_cases hc : f x y ≤ 0
      · rw [if_pos hc]
        simp [List.mem_cons]
      · rw [if_neg hc]
        simp only [List.mem_cons, ih]
        tauto

theorem mem_sortByC (f : α → α → Int) (z : α) :
    ∀ l : List α, z ∈ sortByC f l ↔ z ∈ l := by
  intro l
  induction l with
  | nil => simp [sortByC]
  | cons y ys ih =>
      simp only [sortByC, mem_insertByC, ih, List.mem_cons]

theorem collapseLoop_out_mono (settings : RecurrenceCollapseConfig) (x : VEvent) :
    ∀ (l out : List VEvent) (inP : List RecurrenceInProgress),
      x ∈ out → x ∈ (collapseLoop settings l out inP).1 := by
  intro l
  induction l with
  | nil => intro out inP h; exact h
  | cons e rest ih =>
      intro out inP h
      by_cases hr : hasTruthyRrule e
      · simp only [collapseLoop, hr, if_true]
        exact ih _ _ (List.mem_append_left _ h)
      · simp only [collapseLoop, hr, Bool.false_eq_true, if_false]
        cases htry : tryExtend settings e inP with
        | some inP' => exact ih _ _ h
        | none =>
            cases hs : getStart e with
            | some s => exact ih _ _ h
            | none => exact ih _ _ h

theorem collapseLoop_rrule_mem (settings : RecurrenceCollapseConfig) (x : VEvent)
    (hx : hasTruthyRrule x = true) :
    ∀ (l out : List VEvent) (inP : List RecurrenceInProgress),
      x ∈ l → x ∈ (collapseLoop settings l out inP).1 := by
  intro l
  induction l with
  | nil => intro out inP h; exact absurd h (List.not_mem_nil x)
  | cons e rest ih =>
      intro out inP h
      rcases List.mem_cons.mp h with he | hr
      · subst he
        simp only [collapseLoop, hx, if_true]
        exact collapseLoop_out_mono settings x rest _ inP
          (List.mem_append_right _ (List.mem_singleton.mpr rfl))
      · by_cases hre : hasTruthyRrule e
        · simp only [collapseLoop, hre, if_true]
          exact ih _ _ hr
        · simp only [collapseLoop, hre, Bool.false_eq_true, if_false]
          cases htry : tryExtend settings e inP with
          | some inP' => exact ih _ _ hr
          | none =>
              cases hs : getStart e with
              | some s => exact ih _ _ hr
              | none => exact ih _ _ hr

/-- C2 (amended).  Every event that already carries a truthy recurrence rule
AND a start time passes through the collapser into the output untouched —
never merged, modified or dropped.  (An rrule-carrying event without a start
time is instead dropped by the pre-sort filter, which runs before the rrule
check.) -/
theorem rrule_event_with_start_passes_through (settings : RecurrenceCollapseConfig)
    (vevents : List VEvent) (e : VEvent) (hmem : e ∈ vevents)
    (hrr : hasTruthyRrule e = true) (hstart : (getStart e).isSome = true) :
    e ∈ collapseSelectedRecurrences vevents settings := by
  obtain ⟨s, hs⟩ := Option.isSome_iff_exists.mp hstart
  have hpair : (s, e) ∈ vevents.filterMap (fun v => (getStart v).map (fun s => (s, v))) := by
    apply List.mem_filterMap.mpr
    exact ⟨e, hmem, by rw [hs]; rfl⟩
  have hsorted : (s, e) ∈ sortByC (fun a b => compareTime a.1 b.1)
      (vevents.filterMap (fun v => (getStart v).map (fun s => (s, v)))) :=
    (mem_sortByC _ _ _).mpr hpair
  have hmap : e ∈ (sortByC (fun a b => compareTime a.1 b.1)
      (vevents.filterMap (fun v => (getStart v).map (fun s => (s, v))))).map (·.2) :=
    List.mem_map.mpr ⟨(s, e), hsorted, rfl⟩
  exact List.mem_append_left _ (collapseLoop_rrule_mem settings e hrr _ [] [] hmap)

/-- C2 counterexample.  An event that carries a recurrence rule but no start
time is silently dropped by the collapser, contrary to the claim that rrule
events pass through regardless of whether they carry a start time. -/
theorem rrule_event_without_start_dropped :
    hasTruthyRrule evRRNoStartW = true ∧
    collapseSelectedRecurrences [evRRNoStartW] cfgDailyW = [] := by
  refine ⟨rfl, rfl⟩

/-- Witness for `rrule_event_with_start_passes_through` on a two-event
document. -/
theorem rrule_event_with_start_passes_through_witness :
    evRRW ∈ collapseSelectedRecurrences [evRRW, mkEv 0 "A"] cfgDailyW := by
  exact rrule_event_with_start_passes_through cfgDailyW [evRRW, mkEv 0 "A"] evRRW
    (List.mem_cons_self _ _) rfl rfl

/-! ## Collapser lemmas, C1 -/

theorem compareTime_self (t : Int) : compareTime t t = 0 := by
  simp [compareTime]

theorem compareTime_of_lt {a b : Int} (h : a < b) : compareTime a b = -1 := by
  simp [compareTime, h]

theorem getFutureOccurrenceTime_eq (t : Int) (f : Freq) :
    getFutureOccurrenceTime t f = t + periodOf f := by
  cases f <;> rfl

theorem periodOf_pos (f : Freq) : 0 < periodOf f := by
  cases f <;> decide

theorem of_startChainB_cons {t p : Int} {e : VEvent} {rest : List VEvent}
    (h : startChainB t p (e :: rest) = true) :
    getStart e = some t ∧ startChainB (t + p) p rest = true := by
  simpa [startChainB, Bool.and_eq_true, decide_eq_true_eq] using h

theorem hasTruthyRrule_of_none {e : VEvent}
    (h : getFirstPropertyValue e "rrule" = none) : hasTruthyRrule e = false := by
  simp [hasTruthyRrule, h]

theorem chain_filterMap (p : Int) :
    ∀ (l : List VEvent) (t : Int), startChainB t p l = true →
      l.filterMap (fun v => (getStart v).map (fun s => (s, v))) = pairTimes t p l := by
  intro l
  induction l with
  | nil => intro t _; rfl
  | cons e rest ih =>
      intro t h
      obtain ⟨hs, hrest⟩ := of_startChainB_cons h
      rw [List.filterMap_cons, hs]
      show (t, e) :: rest.filterMap (fun v => (getStart v).map (fun s => (s, v))) =
        pairTimes t p (e :: rest)
      rw [pairTimes, ih (t + p) hrest]

theorem insertByC_pairTimes_front {p : Int} (hp : 0 < p) (t : Int) (e : VEvent) :
    ∀ (l : List VEvent),
      insertByC (fun a b => compareTime a.1 b.1) (t, e) (pairTimes (t + p) p l) =
        (t, e) :: pairTimes (t + p) p l := by
  intro l
  cases l with
  | nil => rfl
  | cons e' l' =>
      rw [pairTimes, insertByC, if_pos]
      rw [compareTime_of_lt (by omega : t < t + p)]
      decide

theorem sortByC_pairTimes {p : Int} (hp : 0 < p) :
    ∀ (l : List VEvent) (t : Int),
      sortByC (fun a b => compareTime a.1 b.1) (pairTimes t p l) = pairTimes t p l := by
  intro l
  induction l with
  | nil => intro t; rfl
  | cons e rest ih =>
      intro t
      rw [pairTimes, sortByC, ih (t + p), insertByC_pairTimes_front hp]

theorem map_snd_pairTimes (t p : Int) :
    ∀ l : List VEvent, (pairTimes t p l).map (·.2) = l := by
  intro l
  induction l generalizing t with
  | nil => rfl
  | cons e rest ih =>
      rw [pairTimes, List.map_cons, ih]

theorem alistGet_buildRequirements (ks : List String) (e0 : VEvent) (k : String) :
    k ∈ ks → alistGet (buildRequirements ks e0) k =
      some ((getFirstPropertyValue e0 k).map Value.toStr) := by
  induction ks with
  | nil => intro h; exact absurd h (List.not_mem_nil k)
  | cons k0 ks' ih =>
      intro h
      rw [buildRequirements, List.map_cons]
      by_cases h0 : k0 = k
      · subst h0
        simp [alistGet]
      · rw [alistGet, if_neg h0]
        have hk : k ∈ ks' := by
          rcases List.mem_cons.mp h with he | hr
          · exact absurd he.symm h0
          · exact hr
        rw [← ih hk, buildRequirements]

theorem keysMatch_of_shared (ks : List String) (e0 e : VEvent)
    (h : ∀ k ∈ ks, ∃ s, getFirstPropertyValue e0 k = some (.str s) ∧
      getFirstPropertyValue e k = some (.str s)) :
    keysMatch ks (buildRequirements ks e0) e = true := by
  unfold keysMatch
  rw [List.all_eq_true]
  intro k hk
  obtain ⟨s, h0, h1⟩ := h k hk
  rw [alistGet_buildRequirements ks e0 k hk, h0, h1]
  simp [reqMatches, Value.toStr]

theorem collapseLoop_extend (settings : RecurrenceCollapseConfig) (e0 : VEvent)
    (reqs : List (String × Option String)) (bd : Option (List String)) :
    ∀ (rest : List VEvent) (t : Int) (c : Nat),
      startChainB t (periodOf settings.frequency) rest = true →
      (∀ e ∈ rest, hasTruthyRrule e = false) →
      (∀ e ∈ rest, keysMatch settings.requiredMatchingKeys reqs e = true) →
      collapseLoop settings rest []
          [⟨e0, reqs, t, ⟨settings.frequency, c, bd⟩⟩] =
        ([], [⟨e0, reqs, t + rest.length * periodOf settings.frequency,
          ⟨settings.frequency, c + rest.length, bd⟩⟩]) := by
  intro rest
  induction rest with
  | nil =>
      intro t c _ _ _
      simp [collapseLoop]
  | cons e rest' ih =>
      intro t c hchain hnr hkm
      obtain ⟨hse, hchain'⟩ := of_startChainB_cons hchain
      have hnre : hasTruthyRrule e = false := hnr e (List.mem_cons_self e rest')
      have hkme : keysMatch settings.requiredMatchingKeys reqs e = true :=
        hkm e (List.mem_cons_self e rest')
      have htm : timeMatches ⟨e0, reqs, t, ⟨settings.frequency, c, bd⟩⟩ e = true := by
        simp [timeMatches, hse, compareTime_self]
      have hext : tryExtend settings e [⟨e0, reqs, t, ⟨settings.frequency, c, bd⟩⟩] =
          some [⟨e0, reqs, t + periodOf settings.frequency,
            ⟨settings.frequency, c + 1, bd⟩⟩] := by
        rw [tryExtend, if_pos ⟨hkme, htm⟩]
        simp [extendSeries, getFutureOccurrenceTime_eq]
      simp only [collapseLoop, hnre, Bool.false_eq_true, if_false, hext]
      rw [ih (t + periodOf settings.frequency) (c + 1) hchain'
        (fun w hw => hnr w (List.mem_cons_of_mem e hw))
        (fun w hw => hkm w (List.mem_cons_of_mem e hw))]
      simp only [Prod.mk.injEq, List.cons.injEq, RecurrenceInProgress.mk.injEq,
        RRuleData.mk.injEq, List.length_cons, true_and, and_true]
      constructor
      · push_cast
        ring
      · omega

/-- C1 (amended).  A group of **at least two** events that all lack a
recurrence rule, share equal string values on every required-matching key,
and have start times spaced exactly one configured period apart collapses to
exactly one output event: the chronologically first event carrying a
RecurrenceRule with the configured frequency and count equal to the group
size; no other event of the group appears.  (A one-event group is instead
emitted unchanged with no rule attached.) -/
theorem collapse_uniform_group (settings : RecurrenceCollapseConfig) (e0 : VEvent)
    (rest : List VEvent) (t0 : Int) (hne : rest ≠ [])
    (hchain : startChainB t0 (periodOf settings.frequency) (e0 :: rest) = true)
    (hnorr : ∀ e ∈ e0 :: rest, getFirstPropertyValue e "rrule" = none)
    (hshare : ∀ k ∈ settings.requiredMatchingKeys, ∃ s, ∀ e ∈ e0 :: rest,
        getFirstPropertyValue e k = some (Value.str s)) :
    collapseSelectedRecurrences (e0 :: rest) settings =
      [addProp e0 "rrule"
        (.recur ⟨settings.frequency, (e0 :: rest).length,
          bydayFor settings.frequency t0⟩)] := by
  have hp : 0 < periodOf settings.frequency := periodOf_pos _
  obtain ⟨hs0, hchain'⟩ := of_startChainB_cons hchain
  have hnr0 : hasTruthyRrule e0 = false :=
    hasTruthyRrule_of_none (hnorr e0 (List.mem_cons_self e0 rest))
  have hkm : ∀ e ∈ rest, keysMatch settings.requiredMatchingKeys
      (buildRequirements settings.requiredMatchingKeys e0) e = true := by
    intro e he
    apply keysMatch_of_shared
    intro k hk
    obtain ⟨s, hall⟩ := hshare k hk
    exact ⟨s, hall e0 (List.mem_cons_self e0 rest), hall e (List.mem_cons_of_mem e0 he)⟩
  unfold collapseSelectedRecurrences
  rw [chain_filterMap _ _ _ hchain, sortByC_pairTimes hp, map_snd_pairTimes]
  simp only [collapseLoop, hnr0, Bool.false_eq_true, if_false, tryExtend, hs0]
  rw [show ([] : List RecurrenceInProgress) ++
      [newSeries settings e0 t0] = [newSeries settings e0 t0] from rfl]
  rw [show newSeries settings e0 t0 =
      ⟨e0, buildRequirements settings.requiredMatchingKeys e0,
        t0 + periodOf settings.frequency,
        ⟨settings.frequency, 1, bydayFor settings.frequency t0⟩⟩ from by
    rw [newSeries, getFutureOccurrenceTime_eq]]
  rw [collapseLoop_extend settings e0 _ _ rest (t0 + periodOf settings.frequency) 1
    hchain' (fun w hw => hasTruthyRrule_of_none (hnorr w (List.mem_cons_of_mem e0 hw))) hkm]
  have hcount : 1 + rest.length > 1 := by
    cases rest with
    | nil => exact absurd rfl hne
    | cons a b => simp
  simp only [List.nil_append, List.map_cons, List.map_nil, finalizeSeries, hcount, if_pos]
  simp only [List.length_cons]
  rw [show 1 + rest.length = rest.length + 1 from by omega]

/-- C1 counterexample.  A one-event group (the spacing premise is vacuous)
is emitted as-is, carrying no RecurrenceRule at all, contrary to the claim
that the emitted event carries a rule with count equal to the group size. -/
theorem collapse_singleton_emits_no_rule :
    collapseSelectedRecurrences [mkEv 0 "A"] cfgDailyW = [mkEv 0 "A"] ∧
    getFirstPropertyValue (mkEv 0 "A") "rrule" = none := by
  refine ⟨rfl, rfl⟩

/-- Witness for `collapse_uniform_group`: three daily-spaced events with the
same `summary` collapse to the first event bearing a daily rule with count
3. -/
theorem collapse_uniform_group_witness :
    collapseSelectedRecurrences [mkEv 0 "A", mkEv 86400 "A", mkEv 172800 "A"] cfgDailyW =
      [addProp (mkEv 0 "A") "rrule" (.recur ⟨.daily, 3, none⟩)] := by
  have h := collapse_uniform_group cfgDailyW (mkEv 0 "A") [mkEv 86400 "A", mkEv 172800 "A"]
    0 (by decide) (by decide)
    (by intro e he; fin_cases he <;> rfl)
    (by
      intro k hk
      have hk' : k = "summary" := by simpa [cfgDailyW] using hk
      subst hk'
      exact ⟨"A", by intro e he; fin_cases he <;> rfl⟩)
  exact h
